import Mathlib

/-!
Verification of the fragment split / verify / merge pipeline of the
0g-storage-test demo client (src/main.go).

Byte sequences are modelled as lists of naturals.  File I/O is modelled
by passing file contents explicitly; a file that cannot be opened is
modelled as `none : Option Bytes`.  Reads from a regular file return
`min bufferSize remaining` bytes, which is the behaviour of os.File.Read
on regular files that the Go code relies on.
-/

namespace ZgStorage

/-- A byte sequence (file contents). -/
abbrev Bytes := List Nat

/-- Embedding of splitFile (src/main.go lines 248-279).  The Go loop reads
up to chunkSize bytes into the buffer and writes buffer[0:bytesRead] out as
the next chunk; a read of 0 bytes or io.EOF terminates the loop.  On a
regular file each read returns min chunkSize remaining, so the loop takes
the first chunkSize bytes and recurses on the rest.  With chunkSize = 0
every read returns 0 bytes, so the loop stops at once. -/
def splitFile (src : Bytes) (chunkSize : Nat) : List Bytes :=
  if h : chunkSize = 0 ∨ src = [] then []
  else src.take chunkSize :: splitFile (src.drop chunkSize) chunkSize
termination_by src.length
decreasing_by
  push_neg at h
  have h1 : 0 < src.length := List.length_pos.mpr h.2
  have h2 : 0 < chunkSize := Nat.pos_of_ne_zero h.1
  simp only [List.length_drop]
  omega

theorem splitFile_nil (F : Nat) : splitFile [] F = [] := by
  rw [splitFile]
  simp

theorem splitFile_zero (src : Bytes) : splitFile src 0 = [] := by
  rw [splitFile]
  simp

theorem splitFile_cons (src : Bytes) (F : Nat) (hF : F ≠ 0) (hs : src ≠ []) :
    splitFile src F = src.take F :: splitFile (src.drop F) F := by
  rw [splitFile]
  rw [dif_neg]
  push_neg
  exact ⟨hF, hs⟩

theorem splitFile_eq_nil_iff (src : Bytes) (F : Nat) (hF : F ≠ 0) :
    splitFile src F = [] ↔ src = [] := by
  constructor
  · intro h
    by_contra hs
    rw [splitFile_cons src F hF hs] at h
    exact List.cons_ne_nil _ _ h
  · intro h
    rw [h, splitFile_nil]

/-- Concatenating the chunks of splitFile gives back the source. -/
theorem splitFile_join (src : Bytes) (F : Nat) (hF : 0 < F) :
    (splitFile src F).flatten = src := by
  by_cases hs : src = []
  · rw [hs, splitFile_nil]
    rfl
  · rw [splitFile_cons src F (Nat.pos_iff_ne_zero.mp hF) hs]
    rw [List.flatten_cons]
    rw [splitFile_join (src.drop F) F hF]
    exact List.take_append_drop F src
termination_by src.length
decreasing_by
  have h1 : 0 < src.length := List.length_pos.mpr hs
  simp only [List.length_drop]
  omega

/-- Ceiling division helper: for 0 < L, (L + F - 1) / F = (L - 1) / F + 1. -/
theorem ceil_div_pos (L F : Nat) (hF : 0 < F) (hL : 0 < L) :
    (L + F - 1) / F = (L - 1) / F + 1 := by
  have h : L + F - 1 = (L - 1) + F := by omega
  rw [h, Nat.add_div_right _ hF]

/-- splitFile produces exactly ceil(T/F) chunks. -/
theorem splitFile_length (src : Bytes) (F : Nat) (hF : 0 < F) :
    (splitFile src F).length = (src.length + F - 1) / F := by
  by_cases hs : src = []
  · rw [hs, splitFile_nil]
    simp only [List.length_nil]
    rw [Nat.div_eq_of_lt (by omega)]
  · rw [splitFile_cons src F (Nat.pos_iff_ne_zero.mp hF) hs]
    simp only [List.length_cons]
    rw [splitFile_length (src.drop F) F hF]
    simp only [List.length_drop]
    have hL : 0 < src.length := List.length_pos.mpr hs
    rw [ceil_div_pos src.length F hF hL]
    rcases le_or_lt F src.length with hle | hlt
    · have h1 : src.length - F + F - 1 = src.length - 1 := by omega
      rw [h1]
    · have h1 : src.length - F = 0 := by omega
      rw [h1]
      have h2 : (0 + F - 1) / F = 0 := Nat.div_eq_of_lt (by omega)
      have h3 : (src.length - 1) / F = 0 := Nat.div_eq_of_lt (by omega)
      rw [h2, h3]
termination_by src.length
decreasing_by
  have h1 : 0 < src.length := List.length_pos.mpr hs
  simp only [List.length_drop]
  omega

/-- Every chunk except the last has length exactly F. -/
theorem splitFile_dropLast_length (src : Bytes) (F : Nat) (hF : 0 < F) :
    ∀ c ∈ (splitFile src F).dropLast, c.length = F := by
  by_cases hs : src = []
  · rw [hs, splitFile_nil]
    intro c hc
    exact absurd hc (List.not_mem_nil c)
  · rw [splitFile_cons src F (Nat.pos_iff_ne_zero.mp hF) hs]
    by_cases hrest : splitFile (src.drop F) F = []
    · rw [hrest]
      intro c hc
      exact absurd hc (List.not_mem_nil c)
    · rw [List.dropLast_cons_of_ne_nil hrest]
      intro c hc
      rcases List.mem_cons.mp hc with hc | hc
      · subst hc
        have hdrop : src.drop F ≠ [] :=
          (splitFile_eq_nil_iff (src.drop F) F (Nat.pos_iff_ne_zero.mp hF)).not.mp hrest
        have hlen : F < src.length := by
          have := List.length_lt_of_drop_ne_nil hdrop
          omega
        simp only [List.length_take]
        omega
      · exact splitFile_dropLast_length (src.drop F) F hF c hc
termination_by src.length
decreasing_by
  have h1 : 0 < src.length := List.length_pos.mpr hs
  simp only [List.length_drop]
  omega

/-- The last chunk has length T - F * (n - 1). -/
theorem splitFile_getLast_length (src : Bytes) (F : Nat) (hF : 0 < F) :
    ∀ l, (splitFile src F).getLast? = some l →
      l.length = src.length - F * ((splitFile src F).length - 1) := by
  by_cases hs : src = []
  · rw [hs, splitFile_nil]
    intro l hl
    exact absurd hl (by simp)
  · rw [splitFile_cons src F (Nat.pos_iff_ne_zero.mp hF) hs]
    by_cases hrest : splitFile (src.drop F) F = []
    · rw [hrest]
      intro l hl
      simp only [List.getLast?_singleton, Option.some.injEq] at hl
      subst hl
      have hdrop : src.drop F = [] :=
        (splitFile_eq_nil_iff (src.drop F) F (Nat.pos_iff_ne_zero.mp hF)).mp hrest
      have hle : src.length ≤ F := by
        have := List.length_drop F src
        rw [hdrop] at this
        simp at this
        omega
      simp only [List.length_take, List.length_cons, List.length_nil]
      omega
    · intro l hl
      obtain ⟨r, rs, hr⟩ := List.exists_cons_of_ne_nil hrest
      rw [hr, List.getLast?_cons_cons, ← hr] at hl
      have ih := splitFile_getLast_length (src.drop F) F hF l hl
      simp only [List.length_drop] at ih
      simp only [List.length_cons]
      have hn : 0 < (splitFile (src.drop F) F).length := List.length_pos.mpr hrest
      set n := (splitFile (src.drop F) F).length with hn_def
      have hmul : F * n = F * (n - 1) + F := by
        have h : n - 1 + 1 = n := Nat.succ_pred_eq_of_pos hn
        calc F * n = F * (n - 1 + 1) := by rw [h]
        _ = F * (n - 1) + F := by rw [Nat.mul_succ]
      have hsimp : n + 1 - 1 = n := by omega
      rw [hsimp]
      rw [ih]
      omega
termination_by src.length
decreasing_by
  have h1 : 0 < src.length := List.length_pos.mpr hs
  simp only [List.length_drop]
  omega

/-- The chunk lengths sum to the source length. -/
theorem splitFile_sum_length (src : Bytes) (F : Nat) (hF : 0 < F) :
    ((splitFile src F).map List.length).sum = src.length := by
  have h := congrArg List.length (splitFile_join src F hF)
  rw [List.length_flatten] at h
  exact h

/-- Every chunk produced by splitFile is non-empty. -/
theorem splitFile_mem_pos (src : Bytes) (F : Nat) (hF : 0 < F) :
    ∀ c ∈ splitFile src F, 1 ≤ c.length := by
  by_cases hs : src = []
  · rw [hs, splitFile_nil]
    intro c hc
    exact absurd hc (List.not_mem_nil c)
  · rw [splitFile_cons src F (Nat.pos_iff_ne_zero.mp hF) hs]
    intro c hc
    rcases List.mem_cons.mp hc with hc | hc
    · subst hc
      have h1 : 0 < src.length := List.length_pos.mpr hs
      simp only [List.length_take]
      omega
    · exact splitFile_mem_pos (src.drop F) F hF c hc
termination_by src.length
decreasing_by
  have h1 : 0 < src.length := List.length_pos.mpr hs
  simp only [List.length_drop]
  omega

/-- The 32 KiB buffer size used by filesEqual (src/main.go line 303). -/
def bufSize : Nat := 32768

/-- One buffer's worth of the byte-by-byte inner loop of filesEqual
(src/main.go lines 322-326), instrumented with the number of byte pairs
compared: the loop returns false at the first differing pair. -/
def cmpChunk : Bytes → Bytes → Bool × Nat
  | [], [] => (true, 0)
  | x :: xs, y :: ys =>
    if x = y then
      let r := cmpChunk xs ys
      (r.1, r.2 + 1)
    else (false, 1)
  | _, _ => (false, 0)

/-- Decrement a remaining-successful-reads budget. -/
def decrOpt : Option Nat → Option Nat
  | none => none
  | some n => some (n - 1)

/-- The read-and-compare loop of filesEqual (src/main.go lines 306-327),
instrumented with the number of byte pairs compared.  e1/e2 give the number
of further read calls that succeed on each input before an I/O error
(none = reads never fail).  Each successful read returns
min bufSize remaining bytes; at end of data it returns (0, io.EOF).  The Go
loop returns true when both reads hit EOF, false when either read errors
(or exactly one hits EOF), and otherwise compares the two buffers. -/
def cmpLoop (b1 b2 : Bytes) (e1 e2 : Option Nat) : Bool × Nat :=
  if e1 = some 0 ∨ e2 = some 0 then (false, 0)
  else if b1 = [] ∧ b2 = [] then (true, 0)
  else if b1 = [] ∨ b2 = [] then (false, 0)
  else if (b1.take bufSize).length ≠ (b2.take bufSize).length then (false, 0)
  else
    let c := cmpChunk (b1.take bufSize) (b2.take bufSize)
    if c.1 then
      let r := cmpLoop (b1.drop bufSize) (b2.drop bufSize) (decrOpt e1) (decrOpt e2)
      (r.1, c.2 + r.2)
    else (false, c.2)
termination_by b1.length + b2.length
decreasing_by
  rename_i h1 h2 h3 h4
  have hb1 : b1 ≠ [] := fun h => h3 (Or.inl h)
  have hb2 : b2 ≠ [] := fun h => h3 (Or.inr h)
  have hl1 : 0 < b1.length := List.length_pos.mpr hb1
  have hl2 : 0 < b2.length := List.length_pos.mpr hb2
  simp only [List.length_drop, bufSize]
  omega

/-- Embedding of filesEqual (src/main.go lines 282-328), instrumented with
the number of byte pairs compared.  An input that cannot be opened is none;
r1/r2 are the read budgets of the two inputs as in cmpLoop.  The function
first compares the Stat sizes and returns false at once on a mismatch,
performing no reads; otherwise it runs the comparison loop. -/
def filesEqualT (f1 f2 : Option Bytes) (r1 r2 : Option Nat) : Bool × Nat :=
  match f1 with
  | none => (false, 0)
  | some b1 =>
    match f2 with
    | none => (false, 0)
    | some b2 =>
      if b1.length ≠ b2.length then (false, 0)
      else cmpLoop b1 b2 r1 r2

/-- The boolean result of filesEqual. -/
def filesEqual (f1 f2 : Option Bytes) (r1 r2 : Option Nat) : Bool :=
  (filesEqualT f1 f2 r1 r2).1

theorem cmpChunk_correct (xs : Bytes) :
    ∀ ys : Bytes, xs.length = ys.length → ((cmpChunk xs ys).1 = true ↔ xs = ys) := by
  induction xs with
  | nil =>
    intro ys h
    have : ys = [] := List.eq_nil_of_length_eq_zero h.symm
    subst this
    simp [cmpChunk]
  | cons x xs ih =>
    intro ys h
    cases ys with
    | nil => simp at h
    | cons y ys =>
      simp only [List.length_cons, Nat.succ.injEq] at h
      by_cases hxy : x = y
      · subst hxy
        simp only [cmpChunk, if_pos rfl]
        rw [List.cons_eq_cons]
        constructor
        · intro hr
          exact ⟨rfl, (ih ys h).mp hr⟩
        · intro ⟨_, hr⟩
          exact (ih ys h).mpr hr
      · simp only [cmpChunk, if_neg hxy]
        simp [hxy]

theorem cmpChunk_refl (xs : Bytes) : (cmpChunk xs xs).1 = true := by
  induction xs with
  | nil => rfl
  | cons x xs ih => simp [cmpChunk, ih]

/-- With no injected read errors and equal lengths, the comparison loop
returns true exactly when the contents coincide. -/
theorem cmpLoop_correct (b1 b2 : Bytes) (h : b1.length = b2.length) :
    ((cmpLoop b1 b2 none none).1 = true ↔ b1 = b2) := by
  rw [cmpLoop]
  have he : ¬((none : Option Nat) = some 0 ∨ (none : Option Nat) = some 0) := by simp
  rw [if_neg he]
  by_cases hb : b1 = [] ∧ b2 = []
  · rw [if_pos hb]
    simp [hb.1, hb.2]
  · rw [if_neg hb]
    have hb1 : b1 ≠ [] := by
      intro h1
      have : b2 = [] := by
        have := h
        rw [h1] at this
        exact List.eq_nil_of_length_eq_zero this.symm
      exact hb ⟨h1, this⟩
    have hb2 : b2 ≠ [] := by
      intro h2
      have : b1 = [] := by
        rw [h2] at h
        exact List.eq_nil_of_length_eq_zero h
      exact hb ⟨this, h2⟩
    rw [if_neg (by simp [hb1, hb2])]
    have hlen : (b1.take bufSize).length = (b2.take bufSize).length := by
      simp [List.length_take, h]
    rw [if_neg (by simp [hlen])]
    simp only [decrOpt]
    by_cases hc : (cmpChunk (b1.take bufSize) (b2.take bufSize)).1 = true
    · rw [if_pos hc]
      have htake : b1.take bufSize = b2.take bufSize :=
        (cmpChunk_correct (b1.take bufSize) (b2.take bufSize) hlen).mp hc
      have hdlen : (b1.drop bufSize).length = (b2.drop bufSize).length := by
        simp [List.length_drop, h]
      have ih := cmpLoop_correct (b1.drop bufSize) (b2.drop bufSize) hdlen
      simp only []
      constructor
      · intro hr
        have hdrop : b1.drop bufSize = b2.drop bufSize := ih.mp hr
        calc b1 = b1.take bufSize ++ b1.drop bufSize := (List.take_append_drop _ _).symm
        _ = b2.take bufSize ++ b2.drop bufSize := by rw [htake, hdrop]
        _ = b2 := List.take_append_drop _ _
      · intro heq
        apply ih.mpr
        rw [heq]
    · rw [if_neg hc]
      simp only [Bool.false_eq_true, false_iff]
      intro heq
      apply hc
      rw [heq]
      exact cmpChunk_refl _
termination_by b1.length + b2.length
decreasing_by
  have hl1 : 0 < b1.length := List.length_pos.mpr hb1
  have hl2 : 0 < b2.length := List.length_pos.mpr hb2
  simp only [List.length_drop, bufSize]
  omega

/-- Whatever read errors are injected, a true answer from the loop implies
the contents coincide: an I/O failure can only turn the answer to false. -/
theorem cmpLoop_sound (b1 b2 : Bytes) (e1 e2 : Option Nat)
    (h : b1.length = b2.length) :
    (cmpLoop b1 b2 e1 e2).1 = true → b1 = b2 := by
  rw [cmpLoop]
  by_cases he : e1 = some 0 ∨ e2 = some 0
  · rw [if_pos he]
    intro hr
    exact absurd hr (by simp)
  · rw [if_neg he]
    by_cases hb : b1 = [] ∧ b2 = []
    · rw [if_pos hb]
      intro _
      rw [hb.1, hb.2]
    · rw [if_neg hb]
      have hb1 : b1 ≠ [] := by
        intro h1
        apply hb
        refine ⟨h1, ?_⟩
        rw [h1] at h
        exact List.eq_nil_of_length_eq_zero h.symm
      have hb2 : b2 ≠ [] := by
        intro h2
        apply hb
        refine ⟨?_, h2⟩
        rw [h2] at h
        exact List.eq_nil_of_length_eq_zero h
      rw [if_neg (by simp [hb1, hb2])]
      have hlen : (b1.take bufSize).length = (b2.take bufSize).length := by
        simp [List.length_take, h]
      rw [if_neg (by simp [hlen])]
      by_cases hc : (cmpChunk (b1.take bufSize) (b2.take bufSize)).1 = true
      · rw [if_pos hc]
        intro hr
        have htake : b1.take bufSize = b2.take bufSize :=
          (cmpChunk_correct (b1.take bufSize) (b2.take bufSize) hlen).mp hc
        have hdlen : (b1.drop bufSize).length = (b2.drop bufSize).length := by
          simp [List.length_drop, h]
        have hdrop : b1.drop bufSize = b2.drop bufSize :=
          cmpLoop_sound (b1.drop bufSize) (b2.drop bufSize) (decrOpt e1) (decrOpt e2) hdlen hr
        calc b1 = b1.take bufSize ++ b1.drop bufSize := (List.take_append_drop _ _).symm
        _ = b2.take bufSize ++ b2.drop bufSize := by rw [htake, hdrop]
        _ = b2 := List.take_append_drop _ _
      · rw [if_neg hc]
        intro hr
        exact absurd hr (by simp)
termination_by b1.length + b2.length
decreasing_by
  have hl1 : 0 < b1.length := List.length_pos.mpr hb1
  have hl2 : 0 < b2.length := List.length_pos.mpr hb2
  simp only [List.length_drop, bufSize]
  omega

/-- A read failure that fires during the comparison loop forces a false
result.  On an input of length L the loop makes ceil(L/bufSize) content
reads followed by one final read pair that returns io.EOF, so a budget of
k ≤ ceil(L/bufSize) successful reads runs out at one of those calls; the
failing Read returns a non-EOF error, the err1/err2 check of src/main.go
line 314 fires, and the loop returns false. -/
theorem cmpLoop_read_fail (b1 b2 : Bytes) (e1 e2 : Option Nat) (k : Nat)
    (hlen : b1.length = b2.length)
    (hk : e1 = some k ∨ e2 = some k)
    (hle : k ≤ (b1.length + bufSize - 1) / bufSize) :
    (cmpLoop b1 b2 e1 e2).1 = false := by
  rw [cmpLoop]
  by_cases he : e1 = some 0 ∨ e2 = some 0
  · rw [if_pos he]
  · rw [if_neg he]
    have hk1 : 1 ≤ k := by
      rcases Nat.eq_zero_or_pos k with hk0 | hk1
      · subst hk0
        exact absurd hk he
      · exact hk1
    by_cases hb : b1 = [] ∧ b2 = []
    · exfalso
      have hL : b1.length = 0 := by
        rw [hb.1]
        rfl
      rw [hL] at hle
      simp only [bufSize] at hle
      omega
    · rw [if_neg hb]
      have hb1 : b1 ≠ [] := by
        intro h1
        apply hb
        refine ⟨h1, ?_⟩
        rw [h1] at hlen
        exact List.eq_nil_of_length_eq_zero hlen.symm
      have hb2 : b2 ≠ [] := by
        intro h2
        apply hb
        refine ⟨?_, h2⟩
        rw [h2] at hlen
        exact List.eq_nil_of_length_eq_zero hlen
      rw [if_neg (by simp [hb1, hb2])]
      have hlen2 : (b1.take bufSize).length = (b2.take bufSize).length := by
        simp [List.length_take, hlen]
      rw [if_neg (by simp [hlen2])]
      by_cases hc : (cmpChunk (b1.take bufSize) (b2.take bufSize)).1 = true
      · rw [if_pos hc]
        have hdlen : (b1.drop bufSize).length = (b2.drop bufSize).length := by
          simp [List.length_drop, hlen]
        have hk' : decrOpt e1 = some (k - 1) ∨ decrOpt e2 = some (k - 1) := by
          rcases hk with h | h
          · left
            rw [h]
            rfl
          · right
            rw [h]
            rfl
        have hL : 0 < b1.length := List.length_pos.mpr hb1
        have hle' : k - 1 ≤ ((b1.drop bufSize).length + bufSize - 1) / bufSize := by
          simp only [List.length_drop, bufSize] at hle ⊢
          omega
        exact cmpLoop_read_fail (b1.drop bufSize) (b2.drop bufSize)
          (decrOpt e1) (decrOpt e2) (k - 1) hdlen hk' hle'
      · rw [if_neg hc]
termination_by b1.length + b2.length
decreasing_by
  have hl1 : 0 < b1.length := List.length_pos.mpr hb1
  have hl2 : 0 < b2.length := List.length_pos.mpr hb2
  simp only [List.length_drop, bufSize]
  omega

/-- Error kinds returned by mergeFiles, standing for the Go errors:
createFail for os.Create failing on the output path, openFail for os.Open
failing on a fragment path (the wrapped error of src/main.go line 341). -/
inductive MergeErr
  | createFail
  | openFail
deriving DecidableEq, Repr

/-- The copy loop of mergeFiles (src/main.go lines 338-352) over the open
output file.  Each input file is modelled by its open result: none means
os.Open fails for that path.  A failing open returns the wrapped error at
once, leaving the bytes already copied in the output; a successful open
appends the whole fragment to the output. -/
def mergeLoop : List (Option Bytes) → Bytes → Option MergeErr × Bytes
  | [], out => (none, out)
  | none :: _, out => (some MergeErr.openFail, out)
  | some c :: rest, out => mergeLoop rest (out ++ c)

/-- Embedding of mergeFiles (src/main.go lines 331-355).  sinkOk is whether
os.Create succeeds on the output path.  The result is the returned error
(none = nil) paired with the contents of the output file, where none means
the output file was never created. -/
def mergeFiles (sinkOk : Bool) (files : List (Option Bytes)) :
    Option MergeErr × Option Bytes :=
  if sinkOk then
    let r := mergeLoop files []
    (r.1, some r.2)
  else (some MergeErr.createFail, none)

theorem mergeLoop_all_some (l : List Bytes) :
    ∀ acc : Bytes, mergeLoop (l.map some) acc = (none, acc ++ l.flatten) := by
  induction l with
  | nil =>
    intro acc
    simp [mergeLoop]
  | cons c rest ih =>
    intro acc
    simp only [List.map_cons, mergeLoop, List.flatten_cons]
    rw [ih (acc ++ c)]
    rw [List.append_assoc]

theorem mergeLoop_first_fail (pre : List Bytes) (rest : List (Option Bytes)) :
    ∀ acc : Bytes,
      mergeLoop (pre.map some ++ none :: rest) acc =
        (some MergeErr.openFail, acc ++ pre.flatten) := by
  induction pre with
  | nil =>
    intro acc
    simp [mergeLoop]
  | cons c p ih =>
    intro acc
    simp only [List.map_cons, List.cons_append, mergeLoop, List.flatten_cons,
      List.append_eq]
    rw [ih (acc ++ c)]
    rw [List.append_assoc]

/-- The (strategy, trustedOnly) combinations tried for node selection, in
the order of src/main.go lines 116-140: the strategy string is the method
argument of SelectNodes, the boolean its fullTrusted argument. -/
def strategies : List (String × Bool) :=
  [("", true), ("", false), ("random", true), ("random", false)]

/-- The nested fallback of src/main.go lines 116-140: each SelectNodes call
is tried only if all earlier ones failed; the outcome of the i-th call is
ok i.  Returns the list of combinations actually tried and whether any call
succeeded (false means the log.Fatalf of line 136 fires). -/
def runSelection (ok : Fin 4 → Bool) : List (String × Bool) × Bool :=
  if ok 0 then (strategies.take 1, true)
  else if ok 1 then (strategies.take 2, true)
  else if ok 2 then (strategies.take 3, true)
  else if ok 3 then (strategies, true)
  else (strategies, false)

/-- The stage at which a run hits a log.Fatal call (src/main.go lines 94,
100, 136, 145, 184).  log.Fatal prints and then calls os.Exit(1), which
terminates the process without running deferred functions. -/
inductive Stage
  | generator
  | splitter
  | selection
  | nodes
  | downloader
deriving DecidableEq, Repr

/-- The upload loop of src/main.go lines 150-174 over fragment indices:
a fragment whose NewUploader call fails (uOk) or whose UploadFile call
fails (pOk) is skipped via continue; otherwise its root hash (modelled by
its index) is appended to rootHashes. -/
def uploadLoop (uOk pOk : Nat → Bool) : List Nat → List Nat
  | [] => []
  | i :: rest =>
    if uOk i then
      if pOk i then i :: uploadLoop uOk pOk rest
      else uploadLoop uOk pOk rest
    else uploadLoop uOk pOk rest

/-- The download loop of src/main.go lines 188-209 over root handles: a
handle whose Download call fails is skipped via continue; otherwise its
download is appended to downloadedFiles. -/
def downloadLoop (dOk : Nat → Bool) : List Nat → List Nat
  | [] => []
  | h :: rest =>
    if dOk h then h :: downloadLoop dOk rest
    else downloadLoop dOk rest

/-- Outcomes of the external calls made by one run of main, together with
the configured source data and fragment size (the TotalSize/FragmentSize
constants, part of the configuration surface).  Handles are modelled by
fragment indices. -/
structure Env where
  genOk : Bool
  src : Bytes
  fragSize : Nat
  readOk : Bool
  selOk : Fin 4 → Bool
  trusted : Nat
  discovered : Nat
  uploaderOk : Nat → Bool
  putOk : Nat → Bool
  downloaderOk : Bool
  dlOk : Nat → Bool
  dlContent : Nat → Bytes
  mergeSinkOk : Bool

/-- Observable outcome of one run of main. -/
structure RunResult where
  fatalStage : Option Stage := none
  cleanupRan : Bool := false
  selAttempts : List (String × Bool) := []
  uploadsAttempted : Nat := 0
  rootHandles : List Nat := []
  downloadsAttempted : Nat := 0
  downloadedFiles : List Nat := []
  mergeAttempted : Bool := false
  mergeErr : Bool := false
  mergedProduced : Bool := false

/-- Embedding of main (src/main.go lines 36-232) from the MkdirAll of the
working directory onward.  The deferred os.RemoveAll registered on line 89
runs on every normal return, but every log.Fatal path terminates through
os.Exit, which skips deferred functions, so cleanupRan is false exactly on
the fatal paths.  Per-fragment upload and download failures and a
mergeFiles error are logged and non-fatal. -/
def mainRun (env : Env) : RunResult :=
  if env.genOk = false then
    { fatalStage := some Stage.generator, cleanupRan := false }
  else if env.readOk = false then
    { fatalStage := some Stage.splitter, cleanupRan := false }
  else
    let fragments := splitFile env.src env.fragSize
    let sel := runSelection env.selOk
    if sel.2 = false then
      { fatalStage := some Stage.selection, cleanupRan := false,
        selAttempts := sel.1 }
    else if env.trusted + env.discovered = 0 then
      { fatalStage := some Stage.nodes, cleanupRan := false,
        selAttempts := sel.1 }
    else
      let handles := uploadLoop env.uploaderOk env.putOk (List.range fragments.length)
      if env.downloaderOk = false then
        { fatalStage := some Stage.downloader, cleanupRan := false,
          selAttempts := sel.1, uploadsAttempted := fragments.length,
          rootHandles := handles }
      else
        let dls := downloadLoop env.dlOk handles
        if 0 < dls.length then
          let m := mergeFiles env.mergeSinkOk (dls.map (fun i => some (env.dlContent i)))
          { fatalStage := none, cleanupRan := true,
            selAttempts := sel.1, uploadsAttempted := fragments.length,
            rootHandles := handles, downloadsAttempted := handles.length,
            downloadedFiles := dls, mergeAttempted := true,
            mergeErr := m.1.isSome, mergedProduced := m.2.isSome }
        else
          { fatalStage := none, cleanupRan := true,
            selAttempts := sel.1, uploadsAttempted := fragments.length,
            rootHandles := handles, downloadsAttempted := handles.length,
            downloadedFiles := dls, mergeAttempted := false,
            mergeErr := false, mergedProduced := false }

theorem uploadLoop_eq_filter (uOk pOk : Nat → Bool) (l : List Nat) :
    uploadLoop uOk pOk l = l.filter (fun i => uOk i && pOk i) := by
  induction l with
  | nil => rfl
  | cons i rest ih =>
    by_cases hu : uOk i = true
    · by_cases hp : pOk i = true
      · simp [uploadLoop, hu, hp, List.filter_cons, ih]
      · simp [uploadLoop, hu, hp, List.filter_cons, ih]
    · simp [uploadLoop, hu, List.filter_cons, ih]

theorem runSelection_snd (ok : Fin 4 → Bool) :
    (runSelection ok).2 = (ok 0 || ok 1 || ok 2 || ok 3) := by
  rcases h0 : ok 0 <;> rcases h1 : ok 1 <;> rcases h2 : ok 2 <;> rcases h3 : ok 3 <;>
    simp [runSelection, h0, h1, h2, h3]

theorem runSelection_snd_false_iff (ok : Fin 4 → Bool) :
    (runSelection ok).2 = false ↔ ∀ i, ok i = false := by
  rw [runSelection_snd]
  simp only [Bool.or_eq_false_iff]
  constructor
  · intro ⟨⟨⟨h0, h1⟩, h2⟩, h3⟩ i
    fin_cases i <;> assumption
  · intro h
    exact ⟨⟨⟨h 0, h 1⟩, h 2⟩, h 3⟩

/-- A run in which every external call succeeds, the source is two full
fragments long, and one trusted node is available. -/
def baseEnv : Env :=
  { genOk := true
    src := List.replicate 512 7
    fragSize := 256
    readOk := true
    selOk := fun _ => true
    trusted := 1
    discovered := 0
    uploaderOk := fun _ => true
    putOk := fun _ => true
    downloaderOk := true
    dlOk := fun _ => true
    dlContent := fun _ => []
    mergeSinkOk := true }

/-- C1: for every source of length T and chunk size F > 0, splitFile
produces exactly ceil(T/F) chunks (none when T = 0), every chunk except
possibly the last has length F, the last chunk has length T - F*(n-1),
and the chunk lengths sum to T. -/
theorem c1_splitFile_chunk_shape (src : Bytes) (F : Nat) (hF : 0 < F) :
    (splitFile src F).length = (src.length + F - 1) / F ∧
    (src.length = 0 → splitFile src F = []) ∧
    (∀ c ∈ (splitFile src F).dropLast, c.length = F) ∧
    (∀ l, (splitFile src F).getLast? = some l →
      l.length = src.length - F * ((splitFile src F).length - 1)) ∧
    ((splitFile src F).map List.length).sum = src.length := by
  refine ⟨splitFile_length src F hF, ?_, splitFile_dropLast_length src F hF,
    splitFile_getLast_length src F hF, splitFile_sum_length src F hF⟩
  intro h
  have : src = [] := List.eq_nil_of_length_eq_zero h
  rw [this, splitFile_nil]

/-- Witness for C1 at T = 1000, F = 256: 4 chunks of lengths
256, 256, 256, 232. -/
theorem c1_witness :
    (splitFile (List.replicate 1000 3) 256).length =
      ((List.replicate 1000 3 : Bytes).length + 256 - 1) / 256 ∧
    ((List.replicate 1000 3 : Bytes).length = 0 → splitFile (List.replicate 1000 3) 256 = []) ∧
    (∀ c ∈ (splitFile (List.replicate 1000 3) 256).dropLast, c.length = 256) ∧
    (∀ l, (splitFile (List.replicate 1000 3) 256).getLast? = some l →
      l.length = (List.replicate 1000 3 : Bytes).length -
        256 * ((splitFile (List.replicate 1000 3) 256).length - 1)) ∧
    ((splitFile (List.replicate 1000 3) 256).map List.length).sum =
      (List.replicate 1000 3 : Bytes).length := by
  exact c1_splitFile_chunk_shape (List.replicate 1000 3) 256 (by decide)

/-- C2: merging, in order and bypassing the remote store, exactly the
fragments produced by splitFile reproduces the source byte-for-byte, with
a nil error. -/
theorem c2_split_merge_roundtrip (src : Bytes) (F : Nat) (hF : 0 < F) :
    mergeFiles true ((splitFile src F).map some) = (none, some src) := by
  unfold mergeFiles
  rw [if_pos rfl]
  rw [mergeLoop_all_some]
  rw [List.nil_append]
  rw [splitFile_join src F hF]

/-- Witness for C2 on a 5-byte source with F = 2. -/
theorem c2_witness :
    mergeFiles true ((splitFile [1, 2, 3, 4, 5] 2).map some) =
      (none, some [1, 2, 3, 4, 5]) :=
  c2_split_merge_roundtrip [1, 2, 3, 4, 5] 2 (by decide)

/-- C3: filesEqual first compares lengths and returns false at once on a
mismatch with zero bytes scanned; when the lengths agree and no read
fails it returns true iff the inputs are byte-identical; a failure to
open either input yields false, and so does a read failure that fires
during the comparison loop (a budget of k successful reads with
k ≤ ceil(length/bufSize) runs out at one of the loop's read calls) —
never a propagated error (the function is total and Bool-valued). -/
theorem c3_filesEqual_spec (f1 f2 : Option Bytes) (r1 r2 : Option Nat) :
    ((f1 = none ∨ f2 = none) → filesEqual f1 f2 r1 r2 = false) ∧
    (∀ b1 b2, f1 = some b1 → f2 = some b2 →
      (b1.length ≠ b2.length → filesEqualT f1 f2 r1 r2 = (false, 0)) ∧
      (b1.length = b2.length →
        (filesEqual f1 f2 none none = true ↔ b1 = b2) ∧
        (filesEqual f1 f2 r1 r2 = true → b1 = b2) ∧
        (∀ k, (r1 = some k ∨ r2 = some k) →
          k ≤ (b1.length + bufSize - 1) / bufSize →
          filesEqual f1 f2 r1 r2 = false))) := by
  constructor
  · intro h
    rcases h with h | h
    · rw [h]
      rfl
    · rw [h]
      cases f1 <;> rfl
  · intro b1 b2 h1 h2
    subst h1
    subst h2
    constructor
    · intro hne
      simp [filesEqualT, hne]
    · intro heq
      refine ⟨?_, ?_, ?_⟩
      · simp only [filesEqual, filesEqualT, if_neg (by omega : ¬b1.length ≠ b2.length)]
        exact cmpLoop_correct b1 b2 heq
      · simp only [filesEqual, filesEqualT, if_neg (by omega : ¬b1.length ≠ b2.length)]
        exact cmpLoop_sound b1 b2 r1 r2 heq
      · intro k hk hle
        simp only [filesEqual, filesEqualT, if_neg (by omega : ¬b1.length ≠ b2.length)]
        exact cmpLoop_read_fail b1 b2 r1 r2 k heq hk hle

/-- Witness for C3: a length mismatch yields (false, 0) with no bytes
scanned, on equal-length identical inputs the comparison is true, and a
read failure on the first read of one input — even with identical
contents — yields false. -/
theorem c3_witness :
    filesEqualT (some [0, 1]) (some [5]) none none = (false, 0) ∧
    (filesEqual (some [0, 1]) (some [0, 1]) none none = true ↔
      ([0, 1] : Bytes) = [0, 1]) ∧
    filesEqual (some [0, 1]) (some [0, 1]) (some 0) none = false := by
  refine ⟨?_, ?_, ?_⟩
  · exact ((c3_filesEqual_spec (some [0, 1]) (some [5]) none none).2
      [0, 1] [5] rfl rfl).1 (by decide)
  · exact (((c3_filesEqual_spec (some [0, 1]) (some [0, 1]) none none).2
      [0, 1] [0, 1] rfl rfl).2 rfl).1
  · exact (((c3_filesEqual_spec (some [0, 1]) (some [0, 1]) (some 0) none).2
      [0, 1] [0, 1] rfl rfl).2 rfl).2.2 0 (Or.inl rfl) (Nat.zero_le _)

/-- C7: mergeFiles fails with an error when the output sink cannot be
created or when any fragment source cannot be opened, and a failure on
fragment i aborts the merge leaving the partial output for fragments
0..i-1 (and nothing else) in the output file. -/
theorem c7_merge_failure_partial_output (files : List (Option Bytes))
    (pre : List Bytes) (rest : List (Option Bytes)) :
    mergeFiles false files = (some MergeErr.createFail, none) ∧
    mergeFiles true (pre.map some ++ none :: rest) =
      (some MergeErr.openFail, some pre.flatten) := by
  constructor
  · rfl
  · unfold mergeFiles
    rw [if_pos rfl]
    rw [mergeLoop_first_fail]
    rw [List.nil_append]

/-- C9: every fragment produced by splitFile with F > 0 is non-empty. -/
theorem c9_fragments_nonempty (src : Bytes) (F : Nat) (hF : 0 < F) :
    ∀ c ∈ splitFile src F, 1 ≤ c.length :=
  splitFile_mem_pos src F hF

/-- Witness for C9: the first chunk of a 5-byte source with F = 2 is a
fragment and is non-empty. -/
theorem c9_witness :
    ([1, 2] : Bytes) ∈ splitFile [1, 2, 3, 4, 5] 2 ∧
    1 ≤ ([1, 2] : Bytes).length := by
  have hmem : ([1, 2] : Bytes) ∈ splitFile [1, 2, 3, 4, 5] 2 := by
    rw [splitFile_cons [1, 2, 3, 4, 5] 2 (by decide) (by decide)]
    exact List.mem_cons_self _ _
  exact ⟨hmem, c9_fragments_nonempty [1, 2, 3, 4, 5] 2 (by decide) [1, 2] hmem⟩

/-- A run whose random-file generation fails: main hits the log.Fatal of
src/main.go line 94. -/
def envC4 : Env := { baseEnv with genOk := false }

/-- C4 counterexample: the claim that every exit path deletes the working
directory is false.  When the generator fails, main exits through
log.Fatal, i.e. os.Exit(1), which does not run the deferred
os.RemoveAll(workDir): the run ends on an error path with the temporary
artifacts still on disk. -/
theorem c4_counterexample :
    (mainRun envC4).fatalStage = some Stage.generator ∧
    (mainRun envC4).cleanupRan = false :=
  ⟨rfl, rfl⟩

/-- C4 amended: the deferred removal of the working directory runs exactly
on the paths that return normally from main (normal completion and the
non-fatal error paths such as per-fragment upload/download failures and a
merge error); every log.Fatal path skips it. -/
theorem c4_amended_cleanup (env : Env) :
    (mainRun env).cleanupRan = (mainRun env).fatalStage.isNone := by
  simp only [mainRun]
  repeat' split
  all_goals rfl

/-- C5: once the run reaches node selection, the four (strategy,
trustedOnly) combinations are tried in the fixed order ("", true),
("", false), ("random", true), ("random", false); the attempt list stops at
the first success; and the run aborts fatally at the selection stage
exactly when all four combinations fail. -/
theorem c5_node_selection_fallback (env : Env) (hg : env.genOk = true)
    (hr : env.readOk = true) :
    ((env.selOk 0 = true → (mainRun env).selAttempts = strategies.take 1) ∧
     (env.selOk 0 = false → env.selOk 1 = true →
        (mainRun env).selAttempts = strategies.take 2) ∧
     (env.selOk 0 = false → env.selOk 1 = false → env.selOk 2 = true →
        (mainRun env).selAttempts = strategies.take 3) ∧
     (env.selOk 0 = false → env.selOk 1 = false → env.selOk 2 = false →
        env.selOk 3 = true → (mainRun env).selAttempts = strategies)) ∧
    ((mainRun env).fatalStage = some Stage.selection ↔
      ∀ i, env.selOk i = false) := by
  have hsel : (mainRun env).selAttempts = (runSelection env.selOk).1 := by
    simp only [mainRun, hg, hr]
    repeat' split
    all_goals simp_all
  constructor
  · refine ⟨?_, ?_, ?_, ?_⟩
    · intro h0
      rw [hsel]
      simp [runSelection, h0]
    · intro h0 h1
      rw [hsel]
      simp [runSelection, h0, h1]
    · intro h0 h1 h2
      rw [hsel]
      simp [runSelection, h0, h1, h2]
    · intro h0 h1 h2 h3
      rw [hsel]
      simp [runSelection, h0, h1, h2, h3]
  · constructor
    · intro hf
      rw [← runSelection_snd_false_iff]
      cases hs : (runSelection env.selOk).2 with
      | false => rfl
      | true =>
        exfalso
        revert hf
        simp only [mainRun, hg, hr, hs]
        repeat' split
        all_goals simp_all
    · intro hall
      have hs : (runSelection env.selOk).2 = false :=
        (runSelection_snd_false_iff env.selOk).mpr hall
      simp [mainRun, hg, hr, hs]

/-- A run in which the first two selection strategies fail and the third
succeeds. -/
def envC5 : Env := { baseEnv with selOk := fun i => decide (i = 2) }

/-- Witness for C5: with the first two strategies failing and the third
succeeding, exactly the first three combinations are attempted. -/
theorem c5_witness :
    (mainRun envC5).selAttempts = strategies.take 3 :=
  (c5_node_selection_fallback envC5 rfl rfl).1.2.2.1 (by decide) (by decide)
    (by decide)

/-- C6: once the run reaches the upload loop (selection succeeded, nodes
available, downloader creation succeeds), every fragment whose uploader
creation or Put fails is skipped — the root-handle list is exactly the
successfully uploaded indices, in order — the run does not abort, and the
download stage iterates over exactly those entries. -/
theorem c6_upload_skip_continue (env : Env) (hg : env.genOk = true)
    (hr : env.readOk = true) (hsel : (runSelection env.selOk).2 = true)
    (hn : env.trusted + env.discovered ≠ 0) (hd : env.downloaderOk = true) :
    (mainRun env).rootHandles =
      (List.range (splitFile env.src env.fragSize).length).filter
        (fun i => env.uploaderOk i && env.putOk i) ∧
    (mainRun env).fatalStage = none ∧
    (mainRun env).downloadsAttempted = (mainRun env).rootHandles.length ∧
    (mainRun env).downloadedFiles = downloadLoop env.dlOk (mainRun env).rootHandles := by
  simp only [mainRun, hg, hr, hsel, hd, uploadLoop_eq_filter]
  repeat' split
  all_goals simp_all

/-- A run in which the Put call for fragment index 1 fails and everything
else succeeds, on a two-fragment source. -/
def envC6 : Env := { baseEnv with putOk := fun i => decide (i ≠ 1) }

/-- Witness for C6: with Put failing on fragment 1, the run keeps only the
successfully uploaded handles, does not abort, and downloads exactly
those. -/
theorem c6_witness :
    (mainRun envC6).rootHandles =
      (List.range (splitFile envC6.src envC6.fragSize).length).filter
        (fun i => envC6.uploaderOk i && envC6.putOk i) ∧
    (mainRun envC6).fatalStage = none ∧
    (mainRun envC6).downloadsAttempted = (mainRun envC6).rootHandles.length ∧
    (mainRun envC6).downloadedFiles =
      downloadLoop envC6.dlOk (mainRun envC6).rootHandles :=
  c6_upload_skip_continue envC6 rfl rfl rfl (by decide) rfl

/-- Behaviour of a run over an empty source that reaches the upload
stage: no fragments, no uploads, merge skipped, no error. -/
theorem mainRun_empty_source (env : Env) (hsrc : env.src = [])
    (hg : env.genOk = true) (hr : env.readOk = true)
    (hsel : (runSelection env.selOk).2 = true)
    (hn : env.trusted + env.discovered ≠ 0) (hd : env.downloaderOk = true) :
    splitFile env.src env.fragSize = [] ∧
    (mainRun env).uploadsAttempted = 0 ∧
    (mainRun env).rootHandles = [] ∧
    (mainRun env).mergeAttempted = false ∧
    (mainRun env).mergedProduced = false ∧
    (mainRun env).mergeErr = false ∧
    (mainRun env).fatalStage = none := by
  have hfrag : splitFile env.src env.fragSize = [] := by
    rw [hsrc, splitFile_nil]
  refine ⟨hfrag, ?_⟩
  simp only [mainRun, hg, hr, hsel, hd, hfrag]
  simp [uploadLoop, downloadLoop]
  repeat' split
  all_goals simp_all

/-- C8: for an empty source, splitFile returns the empty fragment sequence
with no error; a run that reaches the upload stage attempts no uploads,
skips the merge stage entirely so no merged output is produced, and raises
no error. -/
theorem c8_empty_source_pipeline (env : Env) (hsrc : env.src = [])
    (hg : env.genOk = true) (hr : env.readOk = true)
    (hsel : (runSelection env.selOk).2 = true)
    (hn : env.trusted + env.discovered ≠ 0) (hd : env.downloaderOk = true) :
    splitFile env.src env.fragSize = [] ∧
    (mainRun env).uploadsAttempted = 0 ∧
    (mainRun env).rootHandles = [] ∧
    (mainRun env).mergeAttempted = false ∧
    (mainRun env).mergedProduced = false ∧
    (mainRun env).mergeErr = false ∧
    (mainRun env).fatalStage = none :=
  mainRun_empty_source env hsrc hg hr hsel hn hd

/-- A run over an empty source in which every external call succeeds. -/
def envEmpty : Env := { baseEnv with src := [] }

/-- Witness for C8 on the empty source. -/
theorem c8_witness :
    splitFile envEmpty.src envEmpty.fragSize = [] ∧
    (mainRun envEmpty).uploadsAttempted = 0 ∧
    (mainRun envEmpty).rootHandles = [] ∧
    (mainRun envEmpty).mergeAttempted = false ∧
    (mainRun envEmpty).mergedProduced = false ∧
    (mainRun envEmpty).mergeErr = false ∧
    (mainRun envEmpty).fatalStage = none :=
  c8_empty_source_pipeline envEmpty rfl rfl rfl rfl (by decide) rfl

/-- C10: mergeFiles called with an empty fragment list still creates
(truncates) the output file and returns nil, leaving a zero-byte output —
whereas the pipeline-level empty-source path skips the merge and produces
no output file at all. -/
theorem c10_merge_empty_list (env : Env) (hsrc : env.src = [])
    (hg : env.genOk = true) (hr : env.readOk = true)
    (hsel : (runSelection env.selOk).2 = true)
    (hn : env.trusted + env.discovered ≠ 0) (hd : env.downloaderOk = true) :
    mergeFiles true [] = (none, some ([] : Bytes)) ∧
    (mainRun env).mergeAttempted = false ∧
    (mainRun env).mergedProduced = false := by
  refine ⟨rfl, ?_, ?_⟩
  · exact (mainRun_empty_source env hsrc hg hr hsel hn hd).2.2.2.1
  · exact (mainRun_empty_source env hsrc hg hr hsel hn hd).2.2.2.2.1

/-- Witness for C10 on the empty source. -/
theorem c10_witness :
    mergeFiles true [] = (none, some ([] : Bytes)) ∧
    (mainRun envEmpty).mergeAttempted = false ∧
    (mainRun envEmpty).mergedProduced = false :=
  c10_merge_empty_list envEmpty rfl rfl rfl rfl (by decide) rfl

end ZgStorage
